import Mathlib

/-!
Shallow embedding of the scrapely client (src/index.js): the resilient-fetch
retry loop, the TTL/size-bounded response cache, schema extraction,
pagination, and batched concurrent scraping.  External collaborators
(the HTTP transport, the CSS selector engine, the URL resolver) are
abstracted as function parameters, exactly as the spec treats them.
Machine-visible effects (event emissions, backoff sleeps) are recorded in
an explicit trace so that the observational claims can be stated.
-/

namespace Scrapely

/-- Default constants from src/index.js lines 59-65. -/
def DEFAULT_RETRIES : Nat := 3

def DEFAULT_RETRY_MS : Nat := 1000

def DEFAULT_CONCURRENCY : Nat := 3

def DEFAULT_MAX_PAGES : Nat := 50

def DEFAULT_CACHE_TTL : Nat := 5 * 60000

def DEFAULT_CACHE_MAX : Nat := 200

/-! ## Response cache (src/index.js lines 710-729, `_cacheGet` / `_cachePut`)

The JS `Map` is modelled as an association list in insertion order with
unique keys.  `Map.get` finds the entry for a key; `Map.delete` removes it;
`Map.set` overwrites in place when the key exists (keeping its insertion
position, as JS `Map.set` does) and appends at the end otherwise;
`map.keys().next().value` is the first key in insertion order. -/

/-- Cache entry as stored by `_cachePut`: `{ data, ts: Date.now() }`. -/
structure CEntry where
  ts : Nat
  data : String
deriving DecidableEq

/-- Lookup in a JS `Map` modelled as an insertion-ordered association list. -/
def mapGet : List (String × CEntry) → String → Option CEntry
  | [], _ => none
  | (k', e) :: rest, k => if k' = k then some e else mapGet rest k

/-- JS `Map.delete`: remove the entry for a key (keys are unique in a `Map`,
so removing the first occurrence is exact). -/
def mapDelete : List (String × CEntry) → String → List (String × CEntry)
  | [], _ => []
  | (k', e) :: rest, k => if k' = k then rest else (k', e) :: mapDelete rest k

/-- JS `Map.set`: overwrite in place when the key exists, append otherwise. -/
def mapSet : List (String × CEntry) → String → CEntry → List (String × CEntry)
  | [], k, e => [(k, e)]
  | (k', e') :: rest, k, e =>
      if k' = k then (k', e) :: rest else (k', e') :: mapSet rest k e

/-- `Scrapely._cacheGet` (src/index.js lines 711-720): miss when no entry;
when `Date.now() - entry.ts > ttl`, delete the entry and miss; otherwise
return `entry.data`.  Returns the result together with the updated store. -/
def _cacheGet (ttl : Nat) (now : Nat) (c : List (String × CEntry)) (key : String) :
    Option String × List (String × CEntry) :=
  match mapGet c key with
  | none => (none, c)
  | some entry =>
      if ttl < now - entry.ts then (none, mapDelete c key)
      else (some entry.data, c)

/-- `Scrapely._cachePut` (src/index.js lines 723-729): when
`cache.size >= maxSize`, delete the first key in insertion order
(`cache.keys().next().value`; on an empty map that value is `undefined`
and the delete is a no-op), then `cache.set(key, { data, ts: now })`. -/
def _cachePut (maxSize : Nat) (now : Nat) (c : List (String × CEntry))
    (key : String) (data : String) : List (String × CEntry) :=
  let c1 :=
    if maxSize ≤ c.length then
      match c with
      | [] => c
      | (k0, _) :: _ => mapDelete c k0
    else c
  mapSet c1 key ⟨now, data⟩

/-! ## Resilient fetch (src/index.js lines 142-180)

The HTTP transport is abstracted as a function from the attempt number to
an outcome, as in the spec's transport stubs.  Observers attached to the
client's events are abstracted as a predicate saying on which emitted
events a listener throws: Node's `EventEmitter.emit` runs listeners
synchronously, so a throw inside `emit` surfaces at the `emit` call site. -/

/-- Outcome of one `this._http.get(url, axiosConfig)` call. -/
inductive TRes
  | ok (status : Int) (body : String)
  | fail (code : Nat)
deriving DecidableEq

/-- Cause recorded in `lastErr`: either a transport failure or an exception
thrown by an observer during a synchronous `emit`. -/
inductive Cause
  | transport (code : Nat)
  | observerEx (event : String)
deriving DecidableEq

/-- Observable effects of one `fetch` call, in order: event emissions and
backoff / rate-gate sleeps. -/
inductive Ev
  | request (url : String)
  | response (url : String) (status : Int)
  | retryEv (url : String) (attempt : Nat) (cause : Cause)
  | errorEv (url : String)
  | cacheHit (url : String)
  | sleep (ms : Nat)
deriving DecidableEq

/-- `FetchError` (src/index.js lines 20-30): carries the URL, the attempt
count in its metadata, and the last underlying cause. -/
structure FetchError where
  url : String
  attempts : Nat
  cause : Option Cause
deriving DecidableEq

/-- `ValidationError` (src/index.js lines 32-37). -/
structure ValidationError where
  param : String
  reason : String
deriving DecidableEq

/-- Result of a `fetch` call: a body, a `FetchError` rejection, an escaped
observer exception, or a synchronous `ValidationError`. -/
inductive FOut
  | body (s : String)
  | ferr (e : FetchError)
  | uncaught (c : Cause)
  | verr (e : ValidationError)
deriving DecidableEq

/-- Outcome of the `try` block of one loop iteration (src/index.js lines
159-167): the emissions that happened, and either the retrieved body or
the caught exception. -/
inductive TryOut
  | success (evs : List Ev) (body : String)
  | caught (evs : List Ev) (c : Cause)

/-- One iteration's `try` block: `emit('request')`, `this._http.get`,
`emit('response')`.  A throw from an observer inside either `emit` is
caught by the surrounding `catch`, exactly like a transport failure. -/
def tryBody (ob : Ev → Bool) (t : Nat → TRes) (url : String) (attempt : Nat) : TryOut :=
  if ob (.request url) then .caught [.request url] (.observerEx "request")
  else
    match t attempt with
    | .fail code => .caught [.request url] (.transport code)
    | .ok status body =>
        if ob (.response url status) then
          .caught [.request url, .response url status] (.observerEx "response")
        else .success [.request url, .response url status] body

/-- The retry loop of `fetch` (src/index.js lines 156-180), written as
recursion on the number of remaining iterations: at the top-level call
`remaining = maxRetries` and `attempt = 1`, so `remaining = 0` is exactly
the loop exit `attempt > maxRetries`.  On a caught failure the `catch`
block emits `retry` (a throwing retry observer escapes `fetch`, since that
emit is not inside the `try`), then sleeps `retryDelay * attempt` ms when
`attempt < maxRetries`.  After the loop, a `FetchError` built from
`maxRetries` and `lastErr` is emitted as `error` and thrown (a throwing
error observer escapes instead). -/
def fetchLoop (ob : Ev → Bool) (t : Nat → TRes) (url : String)
    (retryDelay maxRetries : Nat) (cachePolicy : Option (Nat × Nat)) (now : Nat) :
    Nat → Nat → Option Cause → List (String × CEntry) →
    List Ev × List (String × CEntry) × FOut
  | _, 0, lastErr, cache =>
      if ob (.errorEv url) then
        ([.errorEv url], cache, .uncaught (.observerEx "error"))
      else ([.errorEv url], cache, .ferr ⟨url, maxRetries, lastErr⟩)
  | attempt, rem + 1, _lastErr, cache =>
      match tryBody ob t url attempt with
      | .success evs body =>
          let cache' :=
            match cachePolicy with
            | some policy => _cachePut policy.2 now cache url body
            | none => cache
          (evs, cache', .body body)
      | .caught evs c =>
          if ob (.retryEv url attempt c) then
            (evs ++ [.retryEv url attempt c], cache, .uncaught (.observerEx "retry"))
          else
            let sleeps := if attempt < maxRetries then [Ev.sleep (retryDelay * attempt)] else []
            let rest := fetchLoop ob t url retryDelay maxRetries cachePolicy now
              (attempt + 1) rem (some c) cache
            (evs ++ [Ev.retryEv url attempt c] ++ sleeps ++ rest.1, rest.2.1, rest.2.2)

/-- The whole retry phase of `fetch`: the loop entered at `attempt = 1`
with `maxRetries` iterations available and no recorded error. -/
def fetchAttempts (ob : Ev → Bool) (t : Nat → TRes) (url : String)
    (retryDelay maxRetries : Nat) (cachePolicy : Option (Nat × Nat)) (now : Nat)
    (cache : List (String × CEntry)) : List Ev × List (String × CEntry) × FOut :=
  fetchLoop ob t url retryDelay maxRetries cachePolicy now 1 maxRetries none cache

/-- An observer set in which no listener throws. -/
def noThrow : Ev → Bool := fun _ => false

/-- Transport stub that fails the first `k` attempts (with the attempt
number as the failure code) and succeeds afterwards with status 200. -/
def stubFailThenOk (k : Nat) (body : String) : Nat → TRes :=
  fun a => if a ≤ k then .fail a else .ok 200 body

/-- Transport stub that fails every attempt, with failure codes given by `c`. -/
def stubAllFail (c : Nat → Nat) : Nat → TRes := fun a => .fail (c a)

/-- Recognizer for `request` emissions. -/
def isRequest : Ev → Bool
  | .request _ => true
  | _ => false

/-- Recognizer for `retry` emissions. -/
def isRetryEv : Ev → Bool
  | .retryEv _ _ _ => true
  | _ => false

/-! ## The full `fetch` pipeline (src/index.js lines 142-180)

`fetch` validates its argument, runs the rate gate, rotates the
user agent, consults the cache, and only then enters the retry loop.
The JS caller may pass any value as `url`, so the argument is modelled
as a JS value variant; `_assert(url, 'string', 'url')` (lines 850-860)
throws `ValidationError` exactly when `typeof url !== 'string'`. -/

/-- A JavaScript value passed as the `url` argument. -/
inductive JSVal
  | str (s : String)
  | num (n : Int)
  | boolV (b : Bool)
  | nullV
  | undefV
  | objV
deriving DecidableEq

/-- True exactly when `typeof v === 'string'` in JS. -/
def isStringVal : JSVal → Bool
  | .str _ => true
  | _ => false

/-- Mutable per-instance state touched by `fetch`: the cache map, the
rate-gate timestamp, and the user-agent index. -/
structure ClientState where
  cache : List (String × CEntry)
  lastRequestAt : Nat
  uaIndex : Nat
deriving DecidableEq

/-- `Scrapely._rateGate` (src/index.js lines 693-702): a falsy
`rateLimit` (absent or 0) returns at once; otherwise when the time since
the last request is below `1000 / rateLimit`, sleep the difference, then
record the current time.  Clock advance during the sleep is abstracted:
`now` stands for the single instant of this call. -/
def rateGateM (rateLimit : Option Nat) (now : Nat) (st : ClientState) :
    List Ev × ClientState :=
  match rateLimit with
  | none => ([], st)
  | some r =>
      if r = 0 then ([], st)
      else
        let minGap := 1000 / r
        let elapsed := now - st.lastRequestAt
        let evs := if elapsed < minGap then [Ev.sleep (minGap - elapsed)] else []
        (evs, ⟨st.cache, now, st.uaIndex⟩)

/-- Number of entries in `UA_POOL` (src/index.js lines 51-57). -/
def UA_POOL_LEN : Nat := 5

/-- `Scrapely.fetch` (src/index.js lines 142-180): validate, rate-gate,
rotate the user agent, consult the cache (a hit emits `cacheHit` and
returns without a network attempt; that emit is outside any `try`, so a
throwing cacheHit observer escapes), else run the retry loop. -/
def fetchModel (maxRetries retryDelay : Nat) (rateLimit : Option Nat)
    (rotateUserAgent : Bool) (cachePolicy : Option (Nat × Nat))
    (ob : Ev → Bool) (t : Nat → TRes) (now : Nat)
    (st : ClientState) (urlv : JSVal) : List Ev × ClientState × FOut :=
  match urlv with
  | .str url =>
      let g := rateGateM rateLimit now st
      let st1 := g.2
      let st2 :=
        if rotateUserAgent then ⟨st1.cache, st1.lastRequestAt, (st1.uaIndex + 1) % UA_POOL_LEN⟩
        else st1
      match cachePolicy with
      | some policy =>
          let cg := _cacheGet policy.1 now st2.cache url
          match cg.1 with
          | some body =>
              if ob (.cacheHit url) then
                (g.1 ++ [.cacheHit url], ⟨cg.2, st2.lastRequestAt, st2.uaIndex⟩,
                  .uncaught (.observerEx "cacheHit"))
              else
                (g.1 ++ [.cacheHit url], ⟨cg.2, st2.lastRequestAt, st2.uaIndex⟩, .body body)
          | none =>
              let r := fetchAttempts ob t url retryDelay maxRetries (some policy) now cg.2
              (g.1 ++ r.1, ⟨r.2.1, st2.lastRequestAt, st2.uaIndex⟩, r.2.2)
      | none =>
          let r := fetchAttempts ob t url retryDelay maxRetries none now st2.cache
          (g.1 ++ r.1, ⟨r.2.1, st2.lastRequestAt, st2.uaIndex⟩, r.2.2)
  | _ => ([], st, .verr ⟨"url", "must be a string"⟩)

/-! ## Pagination (src/index.js lines 371-404)

`load` (fetch + parse) and the next-link / URL-resolution collaborators
are abstract.  The loop `for (page = 1; page <= maxPages && currentUrl;
page++)` is written as recursion on the remaining page budget: at the top
`remaining = maxPages` and `page = 1`, so `remaining = 0` is exactly
`page > maxPages`.  The first component of the result records the URLs
the loop attempted to load (the visited pages). -/

/-- A value returned by the caller's `dataExtractor`: a JS array (spread
into the accumulator), a non-null scalar (appended), or null/undefined
(skipped, since the source tests `data != null`). -/
inductive PagData (α : Type)
  | arr (xs : List α)
  | scalar (x : α)
  | nullish

/-- `opts.maxPages || DEFAULT_MAX_PAGES` (line 375): any absent or falsy
(0) value falls back to the default of 50. -/
def resolveMaxPages : Option Nat → Nat
  | some n => if n = 0 then DEFAULT_MAX_PAGES else n
  | none => DEFAULT_MAX_PAGES

/-- `opts.concurrency || DEFAULT_CONCURRENCY` (line 337): any absent or
falsy (0) value falls back to the default of 3. -/
def resolveConcurrency : Option Nat → Nat
  | some n => if n = 0 then DEFAULT_CONCURRENCY else n
  | none => DEFAULT_CONCURRENCY

/-- Options of `paginate`, with the document-side collaborators
(`$(nextSel).first().attr('href')` and `_resolveUrl`) abstracted as
functions. -/
structure PagOpts (δ α : Type) where
  optMaxPages : Option Nat
  dataExtractor : Option (δ → String → Nat → PagData α)
  stopWhen : Option (δ → List α → Nat → Bool)
  ignoreErrors : Bool
  nextHrefOf : δ → Option String
  resolveUrl : String → String → String

/-- The body of `paginate`'s loop (src/index.js lines 382-401): load the
current page (an error breaks under `ignoreErrors`, else propagates);
append the extractor's data; stop when `stopWhen` returns true; follow
the first next-link's `href` (absent or empty-string href — falsy in JS —
ends the chain). -/
def paginateGo {δ α : Type} (load : String → Except Nat δ) (o : PagOpts δ α)
    (maxPages : Nat) :
    Nat → Nat → Option String → List α → List String × Except Nat (List α)
  | _, _, none, collected => ([], .ok collected)
  | 0, _, some _, collected => ([], .ok collected)
  | rem + 1, page, some url, collected =>
      match load url with
      | .error e => if o.ignoreErrors then ([url], .ok collected) else ([url], .error e)
      | .ok d =>
          let collected' :=
            match o.dataExtractor with
            | none => collected
            | some f =>
                match f d url page with
                | .arr xs => collected ++ xs
                | .scalar x => collected ++ [x]
                | .nullish => collected
          if (match o.stopWhen with | some s => s d collected' page | none => false) then
            ([url], .ok collected')
          else
            let nextUrl :=
              match o.nextHrefOf d with
              | some href => if href = "" then none else some (o.resolveUrl url href)
              | none => none
            let rest := paginateGo load o maxPages rem (page + 1) nextUrl collected'
            (url :: rest.1, rest.2)

/-- `Scrapely.paginate` (src/index.js lines 371-404): resolve `maxPages`
and run the loop from page 1 at `startUrl` with an empty accumulator. -/
def paginate {δ α : Type} (load : String → Except Nat δ) (o : PagOpts δ α)
    (startUrl : String) : List String × Except Nat (List α) :=
  paginateGo load o (resolveMaxPages o.optMaxPages) (resolveMaxPages o.optMaxPages)
    1 (some startUrl) []

/-! ## Batched concurrent scraping (src/index.js lines 332-359)

One item is `load(url)` followed by `handler($, url)`; its settled
outcome is abstracted as a function from the URL.  `Promise.allSettled`
yields outcomes in input order; the follow-up loop pushes fulfilled
values in that order and, when `ignoreErrors` is false, throws the first
rejection's reason.  The first component of the result records which
URLs were actually started (every URL of a window is started, later
windows are not once the call aborts). -/

/-- The `for (const outcome of settled)` loop (src/index.js lines
349-355): push fulfilled values in order; on a rejection, skip it under
`ignoreErrors`, else throw its reason. -/
def settleFold {β : Type} (ignoreErrors : Bool) :
    List (Except Nat β) → List β → Except Nat (List β)
  | [], results => .ok results
  | .ok v :: rest, results => settleFold ignoreErrors rest (results ++ [v])
  | .error e :: rest, results =>
      if ignoreErrors then settleFold ignoreErrors rest results else .error e

/-- The window loop of `scrapeMultiple` (src/index.js lines 340-356),
as recursion on a fuel that the top level sets to `urls.length`: each
window takes `concurrency` URLs, settles them all, folds the outcomes,
and recurses on the remainder.  With `concurrency ≥ 1` (guaranteed by
`resolveConcurrency`) at most `urls.length` windows ever run, so the
fuel-exhaustion branch is unreachable from `scrapeMultiple`. -/
def scrapeGo {β : Type} (item : String → Except Nat β) (ignoreErrors : Bool)
    (concurrency : Nat) :
    Nat → List String → List β → List String × Except Nat (List β)
  | _, [], results => ([], .ok results)
  | 0, _ :: _, results => ([], .ok results)
  | fuel + 1, u :: us, results =>
      let rest := u :: us
      let batch := rest.take concurrency
      match settleFold ignoreErrors (batch.map item) results with
      | .error e => (batch, .error e)
      | .ok results' =>
          let t := scrapeGo item ignoreErrors concurrency fuel (rest.drop concurrency) results'
          (batch ++ t.1, t.2)

/-- `Scrapely.scrapeMultiple` (src/index.js lines 332-359): resolve the
concurrency and run the window loop over all URLs with an empty result
accumulator. -/
def scrapeMultiple {β : Type} (item : String → Except Nat β) (urls : List String)
    (optConcurrency : Option Nat) (ignoreErrors : Bool) :
    List String × Except Nat (List β) :=
  scrapeGo item ignoreErrors (resolveConcurrency optConcurrency) urls.length urls []

/-! ## Schema extraction (src/index.js lines 250-300, 809-816)

The selector engine is the external `DocumentView` collaborator: a
document provides `select` over the whole document and `findIn` scoped to
a container's subtree, both returning element handles in document order. -/

/-- An element handle: its raw text, its inner HTML, and its attributes. -/
structure Elem where
  textRaw : String
  htmlRaw : String
  attrs : List (String × String)
deriving DecidableEq

/-- Attribute lookup on an element (`$(el).attr(name)`). -/
def attrLookup : List (String × String) → String → Option String
  | [], _ => none
  | (k, v) :: rest, a => if k = a then some v else attrLookup rest a

/-- A value read from the document: a string, `null` (from `.html()` on an
empty selection), or `undefined` (from a missing attribute). -/
inductive JVal
  | str (s : String)
  | nullV
  | undefV
deriving DecidableEq

/-- A field's value in an extraction record: a scalar, or an ordered
sequence of scalars (only the `multiple` branch of `extract` produces
the latter). -/
inductive JOut
  | single (v : JVal)
  | many (vs : List JVal)
deriving DecidableEq

/-- True exactly for scalar (non-sequence) field values. -/
def isSingle : JOut → Bool
  | .single _ => true
  | .many _ => false

/-- A schema field definition (src/index.js lines 236-244): selector,
kind (`'text' | 'html' | 'attribute'`, anything else behaving as text),
attribute name, the `multiple` flag, and an optional transform. -/
structure FieldDef where
  selector : String
  type : String
  attrName : Option String
  multiple : Bool
  transform : Option (JVal → JVal)

/-- `_readValue` (src/index.js lines 809-816): `html` reads inner markup
(`null` on an empty selection), `attribute` reads the named attribute
(`undefined` when the element, the name, or the attribute is missing),
and any other kind reads trimmed text (empty string on an empty
selection). -/
def _readValue (el : Option Elem) (type : String) (attrName : Option String) : JVal :=
  if type = "html" then
    match el with
    | some e => .str e.htmlRaw
    | none => .nullV
  else if type = "attribute" then
    match el, attrName with
    | some e, some a =>
        (match attrLookup e.attrs a with
         | some v => .str v
         | none => .undefV)
    | _, _ => .undefV
  else
    match el with
    | some e => .str e.textRaw.trim
    | none => .str ""

/-- Apply the optional transform of a field definition to a raw value. -/
def applyTransform (d : FieldDef) (raw : JVal) : JVal :=
  match d.transform with
  | some f => f raw
  | none => raw

/-- The abstract parsed document (`DocumentView`): whole-document
selection and selection scoped to a container's subtree. -/
structure Doc where
  select : String → List Elem
  findIn : Elem → String → List Elem

/-- `Scrapely.extract` (src/index.js lines 250-272): for each schema
field, select; with `multiple`, map the read over all matches in document
order; otherwise read only the first match.  Schema key order is
preserved. -/
def extract (doc : Doc) (schema : List (String × FieldDef)) : List (String × JOut) :=
  schema.map (fun kd =>
    let d := kd.2
    let els := doc.select d.selector
    if d.multiple then
      (kd.1, JOut.many (els.map (fun el => applyTransform d (_readValue (some el) d.type d.attrName))))
    else
      (kd.1, JOut.single (applyTransform d (_readValue els.head? d.type d.attrName))))

/-- `Scrapely.extractList` (src/index.js lines 281-300): for each
container matched by `containerSelector`, build one record; each field is
read from `$(container).find(selector).first()` — the destructuring on
line 291 takes `selector`, `type`, `attribute`, `transform` and nothing
else, so the `multiple` flag of a field definition is never consulted. -/
def extractList (doc : Doc) (containerSelector : String)
    (itemSchema : List (String × FieldDef)) : List (List (String × JOut)) :=
  (doc.select containerSelector).map (fun container =>
    itemSchema.map (fun kd =>
      let d := kd.2
      let el := (doc.findIn container d.selector).head?
      let raw := _readValue el d.type d.attrName
      (kd.1, JOut.single (applyTransform d raw))))

/-- Replace the `multiple` flag of a field definition. -/
def setMultiple (d : FieldDef) (b : Bool) : FieldDef :=
  ⟨d.selector, d.type, d.attrName, b, d.transform⟩

/-! ## Concrete scenarios used by the claims -/

/-- An observer that throws when notified of a `response` event. -/
def respThrower : Ev → Bool
  | .response _ _ => true
  | _ => false

/-- An observer that throws when notified of a `retry` event. -/
def retryThrower : Ev → Bool
  | .retryEv _ _ _ => true
  | _ => false

/-- A 3-page site: `p1 → p2 → p3`, parsed document `n` for page `pn`. -/
def chainLoad : String → Except Nat Nat := fun u =>
  if u = "p1" then .ok 1 else if u = "p2" then .ok 2
  else if u = "p3" then .ok 3 else .error 0

/-- Next-link resolution on the 3-page site: page 3 has no next-link. -/
def chainNext : Nat → Option String := fun n =>
  if n = 1 then some "p2" else if n = 2 then some "p3" else none

/-- A data extractor yielding `d1`, `d2`, `d3` on pages 1, 2, 3. -/
def chainExtract (d1 d2 d3 : List Nat) : Nat → String → Nat → PagData Nat :=
  fun n _ _ => .arr (if n = 1 then d1 else if n = 2 then d2 else d3)

/-- Pagination options over the 3-page site. -/
def chainOpts (d1 d2 d3 : List Nat) (mp : Option Nat)
    (sw : Option (Nat → List Nat → Nat → Bool)) : PagOpts Nat Nat :=
  ⟨mp, some (chainExtract d1 d2 d3), sw, false, chainNext, fun _ h => h⟩

/-- A site where every page links to a next page forever. -/
def endlessOpts : PagOpts Nat Nat :=
  ⟨some 0, none, none, false, fun _ => some "n", fun _ h => h⟩

/-- Per-URL settled outcome in which exactly `"u3"` fails (with reason
`e`) and every other URL fulfills with `v` of the URL. -/
def failU3 (v : String → String) (e : Nat) : String → Except Nat String :=
  fun u => if u = "u3" then .error e else .ok (v u)

/-- Per-URL settled outcome in which exactly `"u4"` fails. -/
def failU4 : String → Except Nat String :=
  fun u => if u = "u4" then .error 9 else .ok u

/-- A document with one container (matched by `"div"`) whose subtree has
three `li` elements with inner markup `a`, `b`, `c`; selecting `"li"` on
the whole document yields the same three elements. -/
def liDoc : Doc :=
  ⟨fun s => if s = "div" then [⟨"", "", []⟩]
            else [⟨"a", "a", []⟩, ⟨"b", "b", []⟩, ⟨"c", "c", []⟩],
   fun _ s => if s = "li" then [⟨"a", "a", []⟩, ⟨"b", "b", []⟩, ⟨"c", "c", []⟩] else []⟩

/-- An html-kind field over `li` elements with `multiple = true`. -/
def liField : FieldDef := ⟨"li", "html", none, true, none⟩

/-! ## Lemmas about the map model -/

theorem mapGet_eq_none_iff (c : List (String × CEntry)) (k : String) :
    mapGet c k = none ↔ k ∉ c.map Prod.fst := by
  induction c with
  | nil => simp [mapGet]
  | cons p rest ih =>
      obtain ⟨k', e⟩ := p
      by_cases h : k' = k
      · subst h
        simp [mapGet]
      · simp [mapGet, h, ih, Ne.symm h]

theorem mapGet_mapSet_self (c : List (String × CEntry)) (k : String) (e : CEntry) :
    mapGet (mapSet c k e) k = some e := by
  induction c with
  | nil => simp [mapSet, mapGet]
  | cons p rest ih =>
      obtain ⟨k', e'⟩ := p
      by_cases h : k' = k
      · simp [mapSet, mapGet, h]
      · simp [mapSet, mapGet, h, ih]

theorem mapGet_mapSet_ne (c : List (String × CEntry)) (k k' : String) (e : CEntry)
    (h : k' ≠ k) : mapGet (mapSet c k e) k' = mapGet c k' := by
  have h' : ¬k = k' := fun hh => h hh.symm
  induction c with
  | nil => simp [mapSet, mapGet, h']
  | cons p rest ih =>
      obtain ⟨k0, e0⟩ := p
      by_cases h0 : k0 = k
      · subst h0
        simp [mapSet, mapGet, h']
      · by_cases h1 : k0 = k'
        · subst h1
          simp [mapSet, mapGet, h0, h]
        · simp [mapSet, mapGet, h0, h1, ih]

theorem keys_mapSet_present (c : List (String × CEntry)) (k : String) (e e' : CEntry)
    (h : mapGet c k = some e') :
    (mapSet c k e).map Prod.fst = c.map Prod.fst := by
  induction c with
  | nil => simp [mapGet] at h
  | cons p rest ih =>
      obtain ⟨k0, e0⟩ := p
      by_cases h0 : k0 = k
      · simp [mapSet, h0]
      · simp [mapGet, h0] at h
        simp [mapSet, h0, ih h]

theorem keys_mapSet_absent (c : List (String × CEntry)) (k : String) (e : CEntry)
    (h : mapGet c k = none) :
    (mapSet c k e).map Prod.fst = c.map Prod.fst ++ [k] := by
  induction c with
  | nil => simp [mapSet]
  | cons p rest ih =>
      obtain ⟨k0, e0⟩ := p
      by_cases h0 : k0 = k
      · simp [mapGet, h0] at h
      · simp [mapGet, h0] at h
        simp [mapSet, h0, ih h]

theorem nodup_keys_mapSet (c : List (String × CEntry)) (k : String) (e : CEntry)
    (h : (c.map Prod.fst).Nodup) : ((mapSet c k e).map Prod.fst).Nodup := by
  cases hg : mapGet c k with
  | none =>
      rw [keys_mapSet_absent c k e hg]
      have hk : k ∉ c.map Prod.fst := (mapGet_eq_none_iff c k).mp hg
      rw [List.nodup_append]
      refine ⟨h, List.nodup_singleton k, ?_⟩
      intro a ha hamem
      simp only [List.mem_singleton] at hamem
      exact hk (hamem ▸ ha)
  | some e' => rw [keys_mapSet_present c k e e' hg]; exact h

theorem length_mapSet_le (c : List (String × CEntry)) (k : String) (e : CEntry) :
    (mapSet c k e).length ≤ c.length + 1 := by
  have hmap : (mapSet c k e).length = ((mapSet c k e).map Prod.fst).length := by simp
  cases hg : mapGet c k with
  | none => rw [hmap, keys_mapSet_absent c k e hg]; simp
  | some e' => rw [hmap, keys_mapSet_present c k e e' hg]; simp

theorem length_mapSet_present (c : List (String × CEntry)) (k : String) (e e' : CEntry)
    (h : mapGet c k = some e') : (mapSet c k e).length = c.length := by
  have hmap : (mapSet c k e).length = ((mapSet c k e).map Prod.fst).length := by simp
  rw [hmap, keys_mapSet_present c k e e' h]
  simp

theorem mapGet_mapDelete_self (c : List (String × CEntry)) (k : String)
    (h : (c.map Prod.fst).Nodup) : mapGet (mapDelete c k) k = none := by
  induction c with
  | nil => simp [mapDelete, mapGet]
  | cons p rest ih =>
      obtain ⟨k0, e0⟩ := p
      simp only [List.map_cons, List.nodup_cons] at h
      by_cases h0 : k0 = k
      · subst h0
        simp only [mapDelete, if_pos rfl]
        exact (mapGet_eq_none_iff rest k0).mpr h.1
      · simp [mapDelete, mapGet, h0, ih h.2]

theorem mapGet_mapDelete_ne (c : List (String × CEntry)) (k k' : String)
    (h : k' ≠ k) : mapGet (mapDelete c k) k' = mapGet c k' := by
  have h' : ¬k = k' := fun hh => h hh.symm
  induction c with
  | nil => simp [mapDelete]
  | cons p rest ih =>
      obtain ⟨k0, e0⟩ := p
      by_cases h0 : k0 = k
      · subst h0
        simp [mapDelete, mapGet, h']
      · by_cases h1 : k0 = k'
        · subst h1
          simp [mapDelete, mapGet, h0]
        · simp [mapDelete, mapGet, h0, h1, ih]

/-! ## Claim theorems: the response cache -/

/-- C2: a cache `get` returns the stored value exactly when an entry for
the key exists and `now - entry.ts ≤ ttl`; a fresh hit leaves the store
unchanged; an expired entry makes the `get` a miss and that very `get`
removes the entry from the store; a missing key is a miss. -/
theorem cacheGet_hit_iff_fresh (ttl now : Nat) (c : List (String × CEntry))
    (key : String) (hnd : (c.map Prod.fst).Nodup) :
    ((_cacheGet ttl now c key).1.isSome ↔
      ∃ e, mapGet c key = some e ∧ now - e.ts ≤ ttl)
    ∧ (∀ e, mapGet c key = some e → now - e.ts ≤ ttl →
        (_cacheGet ttl now c key).1 = some e.data ∧ (_cacheGet ttl now c key).2 = c)
    ∧ (∀ e, mapGet c key = some e → ttl < now - e.ts →
        (_cacheGet ttl now c key).1 = none ∧
        mapGet (_cacheGet ttl now c key).2 key = none)
    ∧ (mapGet c key = none → (_cacheGet ttl now c key).1 = none) := by
  cases hg : mapGet c key with
  | none =>
      refine ⟨?_, ?_, ?_, ?_⟩
      · simp [_cacheGet, hg]
      · intro e he; simp at he
      · intro e he; simp at he
      · intro _; simp [_cacheGet, hg]
  | some entry =>
      by_cases hexp : ttl < now - entry.ts
      · refine ⟨?_, ?_, ?_, ?_⟩
        · simp only [_cacheGet, hg, if_pos hexp]
          constructor
          · intro h; simp at h
          · rintro ⟨e, he, hfresh⟩
            obtain rfl : entry = e := Option.some.inj he
            omega
        · intro e he hfresh
          obtain rfl : entry = e := Option.some.inj he
          omega
        · intro e he _
          simp only [_cacheGet, hg, if_pos hexp]
          exact ⟨trivial, mapGet_mapDelete_self c key hnd⟩
        · intro h; simp at h
      · refine ⟨?_, ?_, ?_, ?_⟩
        · simp only [_cacheGet, hg, if_neg hexp]
          exact ⟨fun _ => ⟨entry, rfl, by omega⟩, fun _ => by simp⟩
        · intro e he _
          obtain rfl : entry = e := Option.some.inj he
          simp [_cacheGet, hg, if_neg hexp]
        · intro e he hbad
          obtain rfl : entry = e := Option.some.inj he
          omega
        · intro h; simp at h

/-- C2 witness: a fresh entry is returned at a concrete input. -/
theorem cacheGet_hit_iff_fresh_witness :
    (_cacheGet 10 5 [("k", ⟨0, "v"⟩)] "k").1 = some "v" :=
  ((cacheGet_hit_iff_fresh 10 5 [("k", ⟨0, "v"⟩)] "k" (by decide)).2.1
    ⟨0, "v"⟩ (by decide) (by decide)).1

/-- C3 counterexample: the claim says a `put` of an already-present key
evicts no other entry and that the store never exceeds `maxSize`.  With
`maxSize = 2` and store `[a, b]` at capacity, `put("b", ...)` evicts the
entry for `"a"` even though `"b"` is already present (the capacity check
at line 724 runs before any key-presence check); and with `maxSize = 0`
a `put` into the empty store leaves 1 > 0 entries. -/
theorem cachePut_overwrite_evicts_cex :
    mapGet [("a", (⟨0, "x"⟩ : CEntry)), ("b", ⟨1, "y"⟩)] "a" = some ⟨0, "x"⟩
    ∧ _cachePut 2 5 [("a", ⟨0, "x"⟩), ("b", ⟨1, "y"⟩)] "b" "z" = [("b", ⟨5, "z"⟩)]
    ∧ mapGet (_cachePut 2 5 [("a", ⟨0, "x"⟩), ("b", ⟨1, "y"⟩)] "b" "z") "a" = none
    ∧ (_cachePut 0 0 [] "k" "v").length = 1 := by
  refine ⟨rfl, rfl, rfl, rfl⟩

/-- C3 amended: for `maxSize ≥ 1`, over stores with unique keys and at
most `maxSize` entries, a `put` keeps the size within `maxSize`, keeps
keys unique, and stores the new entry; a `put` while strictly below
capacity evicts nothing; a `put` while at capacity evicts exactly the
earliest-inserted entry whether or not the key is already present
(all entries other than the evicted head and the written key are kept). -/
theorem cachePut_amended_invariant (maxSize now : Nat)
    (c : List (String × CEntry)) (key data : String)
    (hpos : 1 ≤ maxSize) (hnd : (c.map Prod.fst).Nodup) (hlen : c.length ≤ maxSize) :
    ((_cachePut maxSize now c key data).length ≤ maxSize)
    ∧ (((_cachePut maxSize now c key data).map Prod.fst).Nodup)
    ∧ (mapGet (_cachePut maxSize now c key data) key = some ⟨now, data⟩)
    ∧ (c.length < maxSize → ∀ k', k' ≠ key →
        mapGet (_cachePut maxSize now c key data) k' = mapGet c k')
    ∧ (c.length = maxSize → ∀ k0 e0 rest, c = (k0, e0) :: rest →
        (k0 ≠ key → mapGet (_cachePut maxSize now c key data) k0 = none)
        ∧ (∀ k', k' ≠ k0 → k' ≠ key →
            mapGet (_cachePut maxSize now c key data) k' = mapGet c k')) := by
  by_cases hcap : maxSize ≤ c.length
  · have hceq : c.length = maxSize := le_antisymm hlen hcap
    obtain ⟨⟨k0, e0⟩, rest, rfl⟩ : ∃ p rest, c = p :: rest := by
      cases c with
      | nil => simp at hceq; omega
      | cons p rest => exact ⟨p, rest, rfl⟩
    have hcap' : maxSize ≤ rest.length + 1 := by simpa using hcap
    have hput : _cachePut maxSize now ((k0, e0) :: rest) key data
        = mapSet rest key ⟨now, data⟩ := by
      simp [_cachePut, hcap', mapDelete]
    have hkeys : ((k0, e0) :: rest).map Prod.fst = k0 :: rest.map Prod.fst := by simp
    rw [hkeys, List.nodup_cons] at hnd
    have hrestlen : rest.length + 1 = maxSize := by
      simpa using hceq
    refine ⟨?_, ?_, ?_, ?_, ?_⟩
    · rw [hput]
      have := length_mapSet_le rest key ⟨now, data⟩
      omega
    · rw [hput]
      exact nodup_keys_mapSet rest key ⟨now, data⟩ hnd.2
    · rw [hput]
      exact mapGet_mapSet_self rest key ⟨now, data⟩
    · intro hlt
      omega
    · rintro _ k0' e0' rest' heq
      obtain ⟨rfl, rfl, rfl⟩ : k0 = k0' ∧ e0 = e0' ∧ rest = rest' := by
        injection heq with h1 h2
        injection h1 with h11 h12
        exact ⟨h11, h12, h2⟩
      constructor
      · intro hne
        rw [hput, mapGet_mapSet_ne rest key k0 ⟨now, data⟩ hne]
        exact (mapGet_eq_none_iff rest k0).mpr hnd.1
      · intro k' hnk0 hnkey
        rw [hput, mapGet_mapSet_ne rest key k' ⟨now, data⟩ hnkey]
        simp [mapGet, Ne.symm hnk0]
  · have hput : _cachePut maxSize now c key data = mapSet c key ⟨now, data⟩ := by
      simp [_cachePut, hcap]
    refine ⟨?_, ?_, ?_, ?_, ?_⟩
    · rw [hput]
      have := length_mapSet_le c key ⟨now, data⟩
      omega
    · rw [hput]
      exact nodup_keys_mapSet c key ⟨now, data⟩ hnd
    · rw [hput]
      exact mapGet_mapSet_self c key ⟨now, data⟩
    · intro _ k' hne
      rw [hput]
      exact mapGet_mapSet_ne c key k' ⟨now, data⟩ hne
    · intro heq
      omega

/-- C3 amended witness: at capacity, a `put` of a new key stores it and
evicts the earliest-inserted key. -/
theorem cachePut_amended_invariant_witness :
    mapGet (_cachePut 2 7 [("a", ⟨0, "x"⟩), ("b", ⟨1, "y"⟩)] "c" "v") "c"
      = some ⟨7, "v"⟩ :=
  (cachePut_amended_invariant 2 7 [("a", ⟨0, "x"⟩), ("b", ⟨1, "y"⟩)] "c" "v"
    (by decide) (by decide) (by decide)).2.2.1

/-! ## Lemmas about the retry loop's trace -/

/-- Trace of the loop against a transport that fails attempts `≤ k` and
then succeeds: each failed attempt emits `request` and `retry` and sleeps
`retryDelay * attempt`, then the successful attempt emits `request` and
`response` and returns the body.  Stated for any entry point `a` of the
loop with the invariant `a + rem = maxRetries + 1`. -/
theorem fetchLoop_stub_success (k m rd now : Nat) (url body : String)
    (cache : List (String × CEntry)) (hkm : k < m) :
    ∀ d a rem (le : Option Cause), a + d = k + 1 → a + rem = m + 1 →
    fetchLoop noThrow (stubFailThenOk k body) url rd m none now a rem le cache
      = ((List.range' a d).flatMap
          (fun n => [Ev.request url, Ev.retryEv url n (.transport n), Ev.sleep (rd * n)])
          ++ [Ev.request url, Ev.response url 200], cache, .body body) := by
  intro d
  induction d with
  | zero =>
      intro a rem le ha hrem
      obtain ⟨rem', rfl⟩ : ∃ r, rem = r + 1 := ⟨rem - 1, by omega⟩
      have hk : ¬a ≤ k := by omega
      simp [fetchLoop, tryBody, noThrow, stubFailThenOk, hk]
  | succ d ih =>
      intro a rem le ha hrem
      obtain ⟨rem', rfl⟩ : ∃ r, rem = r + 1 := ⟨rem - 1, by omega⟩
      have hk : a ≤ k := by omega
      have hlt : a < m := by omega
      rw [List.range'_succ]
      simp only [List.flatMap_cons]
      simp only [fetchLoop, tryBody, noThrow, stubFailThenOk, Bool.false_eq_true,
        if_false, if_pos hk, if_pos hlt]
      rw [ih (a + 1) rem' (some (.transport a)) (by omega) (by omega)]
      simp

/-- Trace of the loop against a transport that fails every attempt with
cause codes `c`: every attempt emits `request` and `retry`, sleeps only
while attempts remain, and the loop ends by emitting `error` and
rejecting with a `FetchError` carrying `maxRetries` and the cause of the
last attempt actually made. -/
theorem fetchLoop_allFail (m rd now : Nat) (c : Nat → Nat) (url : String)
    (cache : List (String × CEntry)) :
    ∀ rem a (le : Option Cause), a + rem = m + 1 →
    fetchLoop noThrow (stubAllFail c) url rd m none now a rem le cache
      = ((List.range' a rem).flatMap
          (fun n => [Ev.request url, Ev.retryEv url n (.transport (c n))]
            ++ (if n < m then [Ev.sleep (rd * n)] else []))
          ++ [Ev.errorEv url], cache,
         .ferr ⟨url, m, if rem = 0 then le else some (.transport (c m))⟩) := by
  intro rem
  induction rem with
  | zero =>
      intro a le _
      simp [fetchLoop, noThrow]
  | succ rem ih =>
      intro a le hrem
      rw [List.range'_succ]
      simp only [List.flatMap_cons]
      simp only [fetchLoop, tryBody, noThrow, stubAllFail, Bool.false_eq_true, if_false]
      rw [ih (a + 1) (some (.transport (c a))) (by omega)]
      by_cases hrem0 : rem = 0
      · subst hrem0
        have ham : a = m := by omega
        subst ham
        simp
      · have hlt : a < m := by omega
        simp [hrem0, hlt]

/-- Each block of the per-failed-attempt trace contains one `request`
and one `retry` emission, so counting over the flattened blocks is the
number of blocks. -/
theorem countP_flatMap_blocks (p : Ev → Bool) (f : Nat → List Ev)
    (h : ∀ n, (f n).countP p = 1) :
    ∀ l : List Nat, ((l.flatMap f).countP p) = l.length := by
  intro l
  induction l with
  | nil => simp
  | cons x xs ih =>
      simp only [List.flatMap_cons, List.countP_append, h, ih, List.length_cons]
      omega

/-! ## Claim theorems: the retry loop -/

/-- C1: with `maxRetries = m ≥ 1`, against a transport stub failing the
first `k < m` attempts and succeeding after, `fetch` returns the
successful body and emits exactly `k + 1` `request` and `k` `retry`
observations; against a stub failing all attempts, it rejects with a
`FetchError` whose `attempts` metadata is `m` and whose cause is the
last underlying failure. -/
theorem fetch_retry_observations (m k rd now : Nat) (url body : String)
    (c : Nat → Nat) (cache : List (String × CEntry)) (hm : 1 ≤ m) (hk : k < m) :
    ((fetchAttempts noThrow (stubFailThenOk k body) url rd m none now cache).2.2
      = .body body)
    ∧ ((fetchAttempts noThrow (stubFailThenOk k body) url rd m none now cache).1.countP
        isRequest = k + 1)
    ∧ ((fetchAttempts noThrow (stubFailThenOk k body) url rd m none now cache).1.countP
        isRetryEv = k)
    ∧ ((fetchAttempts noThrow (stubAllFail c) url rd m none now cache).2.2
      = .ferr ⟨url, m, some (.transport (c m))⟩) := by
  have hsucc := fetchLoop_stub_success k m rd now url body cache hk k 1 m none
    (by omega) (by omega)
  have hfail := fetchLoop_allFail m rd now c url cache m 1 none (by omega)
  have hm0 : ¬m = 0 := by omega
  refine ⟨?_, ?_, ?_, ?_⟩
  · rw [fetchAttempts, hsucc]
  · rw [fetchAttempts, hsucc]
    simp only [List.countP_append]
    rw [countP_flatMap_blocks isRequest _
      (fun n => by simp [List.countP_cons, List.countP_nil, isRequest])]
    simp [List.countP_cons, List.countP_nil, isRequest]
  · rw [fetchAttempts, hsucc]
    simp only [List.countP_append]
    rw [countP_flatMap_blocks isRetryEv _
      (fun n => by simp [List.countP_cons, List.countP_nil, isRetryEv])]
    simp [List.countP_cons, List.countP_nil, isRetryEv]
  · rw [fetchAttempts, hfail]
    simp [hm0]

/-- C1 witness: the concrete instance `m = 2`, `k = 1`. -/
theorem fetch_retry_observations_witness :
    ((fetchAttempts noThrow (stubFailThenOk 1 "B") "u" 10 2 none 0 []).2.2
      = .body "B")
    ∧ ((fetchAttempts noThrow (stubFailThenOk 1 "B") "u" 10 2 none 0 []).1.countP
        isRequest = 2)
    ∧ ((fetchAttempts noThrow (stubFailThenOk 1 "B") "u" 10 2 none 0 []).1.countP
        isRetryEv = 1)
    ∧ ((fetchAttempts noThrow (stubAllFail (fun n => n)) "u" 10 2 none 0 []).2.2
      = .ferr ⟨"u", 2, some (.transport 2)⟩) :=
  fetch_retry_observations 2 1 10 0 "u" "B" (fun n => n) [] (by decide) (by decide)

/-- C5: the exact effect trace of one `fetch` call shows that after each
failed attempt `n` with `n < maxRetries` the fetcher suspends for exactly
`retryDelay * n` ms before attempt `n + 1`, in strict sequence, and
that no suspension follows the final failed attempt. -/
theorem fetch_backoff_trace (m k rd now : Nat) (url body : String)
    (c : Nat → Nat) (cache : List (String × CEntry)) (hk : k < m) :
    ((fetchAttempts noThrow (stubFailThenOk k body) url rd m none now cache).1
      = (List.range' 1 k).flatMap
          (fun n => [Ev.request url, Ev.retryEv url n (.transport n), Ev.sleep (rd * n)])
        ++ [Ev.request url, Ev.response url 200])
    ∧ ((fetchAttempts noThrow (stubAllFail c) url rd m none now cache).1
      = (List.range' 1 m).flatMap
          (fun n => [Ev.request url, Ev.retryEv url n (.transport (c n))]
            ++ (if n < m then [Ev.sleep (rd * n)] else []))
        ++ [Ev.errorEv url]) := by
  have hsucc := fetchLoop_stub_success k m rd now url body cache hk k 1 m none
    (by omega) (by omega)
  have hfail := fetchLoop_allFail m rd now c url cache m 1 none (by omega)
  exact ⟨by rw [fetchAttempts, hsucc], by rw [fetchAttempts, hfail]⟩

/-- C5 witness: the concrete instance `m = 3`, `k = 1`, `rd = 10`. -/
theorem fetch_backoff_trace_witness :
    ((fetchAttempts noThrow (stubFailThenOk 1 "B") "u" 10 3 none 0 []).1
      = (List.range' 1 1).flatMap
          (fun n => [Ev.request "u", Ev.retryEv "u" n (.transport n), Ev.sleep (10 * n)])
        ++ [Ev.request "u", Ev.response "u" 200])
    ∧ ((fetchAttempts noThrow (stubAllFail (fun n => n)) "u" 10 3 none 0 []).1
      = (List.range' 1 3).flatMap
          (fun n => [Ev.request "u", Ev.retryEv "u" n (.transport n)]
            ++ (if n < 3 then [Ev.sleep (10 * n)] else []))
        ++ [Ev.errorEv "u"]) :=
  fetch_backoff_trace 3 1 10 0 "u" "B" (fun n => n) [] (by decide)

/-- C8 (code bug): a throwing observer does abort the fetch.  With
`maxRetries = 1` and a transport that succeeds with body `"B"`, a
throwing `response` listener is caught by the retry loop's `catch`,
counted as a failed attempt, and `fetch` rejects with a `FetchError`
whose cause is the observer's exception instead of returning the body;
with a failing transport, a throwing `retry` listener escapes `fetch`
entirely, so not even the promised `FetchError` is produced. -/
theorem fetch_observer_throw_aborts :
    (fetchAttempts respThrower (fun _ => TRes.ok 200 "B") "u" 1 1 none 0 []
      = ([.request "u", .response "u" 200, .retryEv "u" 1 (.observerEx "response"),
          .errorEv "u"], [], .ferr ⟨"u", 1, some (.observerEx "response")⟩))
    ∧ ((fetchAttempts respThrower (fun _ => TRes.ok 200 "B") "u" 1 1 none 0 []).2.2
        ≠ .body "B")
    ∧ (fetchAttempts retryThrower (fun _ => TRes.fail 3) "u" 1 2 none 0 []
      = ([.request "u", .retryEv "u" 1 (.transport 3)], [],
         .uncaught (.observerEx "retry"))) := by
  refine ⟨rfl, by decide, rfl⟩

/-! ## Claim theorems: input validation in `fetch` -/

/-- C4 counterexample: the empty string is a string, so
`_assert(url, 'string', 'url')` lets it through — `fetch('')` does not
fail with a `ValidationError`; instead it performs a network attempt
(one `request` emission) and rejects with a `FetchError`. -/
theorem fetch_empty_string_not_rejected_cex :
    fetchModel 1 0 none false none noThrow (fun _ => TRes.fail 7) 0 ⟨[], 0, 0⟩ (.str "")
      = ([.request "", .retryEv "" 1 (.transport 7), .errorEv ""], ⟨[], 0, 0⟩,
         .ferr ⟨"", 1, some (.transport 7)⟩)
    ∧ (fetchModel 1 0 none false none noThrow (fun _ => TRes.fail 7) 0 ⟨[], 0, 0⟩
        (.str "")).1.countP isRequest = 1 :=
  ⟨rfl, rfl⟩

/-- C4 amended: for every `url` argument that is not a string (wrong
type), `fetch` fails synchronously with a `ValidationError` — no event
is emitted, no rate-gate wait, cache access, retry attempt, or network
request happens, and the instance state is untouched.  The empty string,
being a string, is not rejected (see the counterexample). -/
theorem fetch_validation_nonstring (maxRetries retryDelay : Nat)
    (rateLimit : Option Nat) (rotateUA : Bool) (cachePolicy : Option (Nat × Nat))
    (ob : Ev → Bool) (t : Nat → TRes) (now : Nat) (st : ClientState) (v : JSVal)
    (h : isStringVal v = false) :
    fetchModel maxRetries retryDelay rateLimit rotateUA cachePolicy ob t now st v
      = ([], st, .verr ⟨"url", "must be a string"⟩) := by
  cases v <;> simp_all [fetchModel, isStringVal]

/-- C4 amended witness: a numeric `url` argument is rejected without any
observable effect. -/
theorem fetch_validation_nonstring_witness :
    fetchModel 3 1 none false none noThrow (fun _ => TRes.fail 0) 0 ⟨[], 0, 0⟩
      (.num 42) = ([], ⟨[], 0, 0⟩, .verr ⟨"url", "must be a string"⟩) :=
  fetch_validation_nonstring 3 1 none false none noThrow (fun _ => TRes.fail 0) 0
    ⟨[], 0, 0⟩ (.num 42) rfl

/-! ## Claim theorems: pagination -/

/-- C6: on the 3-page chain whose third page has no next-link, `paginate`
visits exactly the 3 pages and returns the accumulator in
page-then-in-page order; with `stopWhen` true at page 2 it visits only 2
pages; with `maxPages = 2` it also stops after 2 pages.  These are the
three termination causes: no resolvable next-link, `stopWhen`, and
`page = maxPages`. -/
theorem paginate_three_page_chain (d1 d2 d3 : List Nat) (mp : Nat) (hmp : 3 ≤ mp) :
    paginate chainLoad (chainOpts d1 d2 d3 (some mp) none) "p1"
      = (["p1", "p2", "p3"], .ok (d1 ++ d2 ++ d3))
    ∧ paginate chainLoad
        (chainOpts d1 d2 d3 (some mp) (some (fun _ _ page => page == 2))) "p1"
      = (["p1", "p2"], .ok (d1 ++ d2))
    ∧ paginate chainLoad (chainOpts d1 d2 d3 (some 2) none) "p1"
      = (["p1", "p2"], .ok (d1 ++ d2)) := by
  have hmp0 : ¬mp = 0 := by omega
  obtain ⟨q, rfl⟩ : ∃ q, mp = q + 3 := ⟨mp - 3, by omega⟩
  refine ⟨?_, ?_, ?_⟩ <;>
    simp [paginate, resolveMaxPages, chainOpts, chainLoad, chainNext, chainExtract,
      paginateGo]

/-- C6 witness: the concrete instance with singleton page data and
`maxPages = 3`. -/
theorem paginate_three_page_chain_witness :
    paginate chainLoad (chainOpts [1] [2, 3] [4] (some 3) none) "p1"
      = (["p1", "p2", "p3"], .ok [1, 2, 3, 4]) :=
  (paginate_three_page_chain [1] [2, 3] [4] 3 (by decide)).1

/-! ## Claim theorems: batched scraping -/

/-- C7: with `concurrency = 2`, five URLs, and URL 3 failing: under
`ignoreErrors = true` all five URLs are started, the failing item is
silently excluded, and the result holds the four successful values in
their original relative order; under `ignoreErrors = false` the call
aborts with the failure's reason after the window containing URL 3
(both of that window's items were started), and the last window is never
started. -/
theorem scrapeMultiple_partial_failure (v : String → String) (e : Nat) :
    scrapeMultiple (failU3 v e) ["u1", "u2", "u3", "u4", "u5"] (some 2) true
      = (["u1", "u2", "u3", "u4", "u5"], .ok [v "u1", v "u2", v "u4", v "u5"])
    ∧ scrapeMultiple (failU3 v e) ["u1", "u2", "u3", "u4", "u5"] (some 2) false
      = (["u1", "u2", "u3", "u4"], .error e) := by
  constructor <;>
    simp [scrapeMultiple, scrapeGo, settleFold, resolveConcurrency, failU3]

/-! ## Claim theorems: list extraction -/

/-- C9: `extractList` never consults the `multiple` flag — rewriting
every field's flag leaves the output unchanged; every field value it
produces is a scalar (never an ordered sequence); and on a concrete
3-element document, `extract` with `multiple = true` yields the ordered
3-element sequence while `extractList` yields only the single value read
from the first matching element inside the container. -/
theorem extractList_ignores_multiple (doc : Doc) (csel : String)
    (schema : List (String × FieldDef)) (b : Bool) :
    (extractList doc csel (schema.map (fun kd => (kd.1, setMultiple kd.2 b)))
      = extractList doc csel schema)
    ∧ (∀ rec, rec ∈ extractList doc csel schema →
        ∀ kv, kv ∈ rec → isSingle kv.2 = true)
    ∧ (extract liDoc [("items", liField)]
        = [("items", .many [.str "a", .str "b", .str "c"])])
    ∧ (extractList liDoc "div" [("items", liField)]
        = [[("items", .single (.str "a"))]]) := by
  refine ⟨?_, ?_, rfl, rfl⟩
  · simp only [extractList, List.map_map]
    rfl
  intro rec hrec kv hkv
  simp only [extractList, List.mem_map] at hrec
  obtain ⟨container, _, rfl⟩ := hrec
  simp only [List.mem_map] at hkv
  obtain ⟨kd, _, rfl⟩ := hkv
  rfl

/-- C9 witness: the single record of the concrete document holds a
scalar field value. -/
theorem extractList_ignores_multiple_witness :
    isSingle (("items", JOut.single (JVal.str "a")).2) = true :=
  (extractList_ignores_multiple liDoc "div" [("items", liField)] false).2.1
    [("items", JOut.single (JVal.str "a"))] (by decide)
    ("items", JOut.single (JVal.str "a")) (by decide)

/-! ## Claim theorems: falsy option fallback -/

/-- C10: `opts.maxPages = 0` is falsy, so `paginate` falls back to the
default of 50 and, on an endless next-link chain, visits exactly 50
pages; likewise `opts.concurrency = 0` falls back to the default
concurrency 3, as shown by a 7-URL batch with a failure in the second
window of three: exactly the first 6 URLs are started. -/
theorem falsy_options_fall_back :
    resolveMaxPages (some 0) = 50
    ∧ resolveConcurrency (some 0) = 3
    ∧ (paginate (fun _ => Except.ok 0) endlessOpts "p0").1.length = 50
    ∧ scrapeMultiple failU4 ["u1", "u2", "u3", "u4", "u5", "u6", "u7"] (some 0) false
      = (["u1", "u2", "u3", "u4", "u5", "u6"], .error 9) := by
  refine ⟨rfl, rfl, by decide, rfl⟩

end Scrapely
